import Mathlib

/-!
Shallow embedding of `file_organizer.py` (class `FileOrganizer`): a
filename-pattern-based file organizer.  Paths are modelled as lists of
components (all paths absolute and normalised, so `os.path.abspath` is the
identity and path equality is list equality).  File contents are natural
numbers.  The filesystem also records which directories are unreadable
(`pathlib.Path.glob` suppresses `PermissionError` while scanning, yielding
nothing from such a directory) and which source paths fail to move
(`shutil.move` raising for environmental reasons: permissions, disk full,
destination parent missing, source removed mid-run).
-/

set_option maxHeartbeats 1000000

namespace FileOrg

/-- Absolute filesystem paths, as lists of name components. -/
abbrev FPath := List String

/-- Python's `needle in haystack` on strings: contiguous-substring test. -/
def substrB (needle haystack : String) : Bool :=
  decide (needle.data <:+: haystack.data)

/-- Python `str.lower()`: characterwise lower-casing. -/
def lowerStr (s : String) : String := ⟨s.data.map Char.toLower⟩

/-- Model of `os.path.basename`: the last path component. -/
def basename (p : FPath) : String := p.getLastD ""

/-- Observable console output of the organizer (the `print` calls that report
directory creation, intended moves, performed moves and per-file errors). -/
inductive Event where
  | createdDir (dir : FPath)
  | wouldMove (src dst : FPath)
  | moved (src dst : FPath)
  | moveError (src : FPath)
deriving DecidableEq, Repr

/-- Filesystem state: regular files with contents, existing directories,
directories whose scan raises `PermissionError` (suppressed by glob), and
source paths whose `shutil.move` raises. -/
structure FS where
  files : List (FPath × Nat)
  dirs : List FPath
  unreadable : List FPath
  badMoves : List FPath
deriving DecidableEq, Repr

/-- First-match association lookup on the file table. -/
def lookupFile : List (FPath × Nat) → FPath → Option Nat
  | [], _ => none
  | e :: rest, p => if e.1 = p then some e.2 else lookupFile rest p

def FS.content (fs : FS) (p : FPath) : Option Nat := lookupFile fs.files p

/-- Model of `Path.is_file()`. -/
def FS.isFile (fs : FS) (p : FPath) : Bool := (fs.content p).isSome

/-- Model of `Path.is_dir()`. -/
def FS.isDir (fs : FS) (p : FPath) : Bool := decide (p ∈ fs.dirs)

/-- Model of `os.path.exists`. -/
def FS.pathExists (fs : FS) (p : FPath) : Bool := fs.isFile p || fs.isDir p

/-- Whether `p` is a direct child of directory `d`. -/
def childOf (d p : FPath) : Bool := decide (p.length = d.length + 1) && decide (d <+: p)

/-- All paths present in the filesystem (files and directories). -/
def FS.entries (fs : FS) : List FPath := fs.files.map Prod.fst ++ fs.dirs

/-- Model of `os.scandir(d)`: the direct children of `d`, in table order. -/
def FS.children (fs : FS) (d : FPath) : List FPath := fs.entries.filter (childOf d)

/-- Model of `Path(d).glob('**/*')`: depth-first enumeration of the subtree below `d`
(both files and directories), with fuel bounding the recursion depth.  An
unreadable directory contributes nothing: pathlib's glob machinery catches
`PermissionError` from `scandir` and simply stops scanning that directory. -/
def FS.walk (fs : FS) : Nat → FPath → List FPath
  | 0, _ => []
  | fuel + 1, d =>
    if d ∈ fs.unreadable then []
    else (fs.children d).flatMap (fun c => c :: (if fs.isDir c then fs.walk fuel c else []))

/-- Enough fuel to reach every path in the filesystem. -/
def FS.depthBound (fs : FS) : Nat :=
  (fs.entries.map List.length).foldr max 0 + 1

/-- The `FileOrganizer` construction state: `source_dir`, `dest_dir`, `dry_run`. -/
structure Config where
  source_dir : FPath
  dest_dir : FPath
  dry_run : Bool
deriving DecidableEq, Repr

/-- Model of `FileOrganizer.__init__`: `dest_dir` defaults to `source_dir`. -/
def Config.init (source_dir : FPath) (dest_dir : Option FPath := none)
    (dry_run : Bool := false) : Config :=
  ⟨source_dir, dest_dir.getD source_dir, dry_run⟩

/-- Model of `FileOrganizer.find_files_with_pattern`: glob (recursively by default),
then keep regular files whose lowercased name contains the lowercased
pattern. -/
def find_files_with_pattern (fs : FS) (cfg : Config) (pattern : String)
    (recursive : Bool := true) : List FPath :=
  let all_files :=
    if recursive then fs.walk fs.depthBound cfg.source_dir
    else if cfg.source_dir ∈ fs.unreadable then [] else fs.children cfg.source_dir
  all_files.filter (fun p => fs.isFile p && substrB (lowerStr pattern) (lowerStr (basename p)))

def FS.setFile (fs : FS) (p : FPath) (c : Nat) : FS :=
  { fs with files := (p, c) :: fs.files.filter (fun e => !decide (e.1 = p)) }

def FS.removeFile (fs : FS) (p : FPath) : FS :=
  { fs with files := fs.files.filter (fun e => !decide (e.1 = p)) }

/-- Model of `os.makedirs(p)`: create `p` and every missing intermediate directory. -/
def FS.makedirs (fs : FS) (p : FPath) : FS :=
  { fs with dirs := fs.dirs ++ p.inits.filter (fun d => !d.isEmpty && !decide (d ∈ fs.dirs)) }

/-- Model of `shutil.move(src, dst)`, following the library's control flow:
when `dst` is an existing directory the source is moved *into* it — unless
`src` and `dst` are the same path (plain rename), the real destination
becomes `dst/basename(src)` and `shutil.Error` is raised (modelled as
`none`) if that path already exists.  Otherwise the source is renamed to
`dst`, silently overwriting an existing regular file there.  `none` also
models a raised `OSError` from the underlying rename: src in `badMoves`
(environmental failures: permissions, disk full), or the source no longer
exists. -/
def FS.move (fs : FS) (src dst : FPath) : Option FS :=
  if fs.isDir dst then
    if src = dst then
      if src ∈ fs.badMoves then none else some fs
    else if fs.pathExists (dst ++ [basename src]) then none
    else if src ∈ fs.badMoves then none
    else
      match fs.content src with
      | none => none
      | some c => some ((fs.removeFile src).setFile (dst ++ [basename src]) c)
  else
    if src ∈ fs.badMoves then none
    else
      match fs.content src with
      | none => none
      | some c => some ((fs.removeFile src).setFile dst c)

/-- State threaded through the move loop of `organize_files`: the filesystem,
the running `moved_count`, and the reported output so far. -/
structure MoveState where
  fs : FS
  moved_count : Nat
  events : List Event
deriving DecidableEq, Repr

/-- One iteration of the move loop in `organize_files`: skip when source and
destination coincide; in dry-run only report; otherwise attempt the move,
counting successes and reporting failures without aborting. -/
def moveStep (cfg : Config) (target_dir : FPath) (st : MoveState) (file_path : FPath) :
    MoveState :=
  if file_path = target_dir ++ [basename file_path] then st
  else if cfg.dry_run then
    { st with events := st.events ++ [Event.wouldMove file_path (target_dir ++ [basename file_path])] }
  else
    match st.fs.move file_path (target_dir ++ [basename file_path]) with
    | some fs' =>
        { fs := fs', moved_count := st.moved_count + 1,
          events := st.events ++ [Event.moved file_path (target_dir ++ [basename file_path])] }
    | none => { st with events := st.events ++ [Event.moveError file_path] }

/-- The target directory: `os.path.join(dest_dir, target_folder_name)`, the
folder name defaulting to the pattern. -/
def targetDirOf (cfg : Config) (pattern : String) (target_folder_name : Option String) : FPath :=
  cfg.dest_dir ++ [target_folder_name.getD pattern]

/-- The directory-creation step of `organize_files`: in live mode, if the
target does not yet exist, `os.makedirs` it. -/
def fsAfterMkdir (fs : FS) (cfg : Config) (target_dir : FPath) : FS :=
  if !cfg.dry_run && !fs.pathExists target_dir then fs.makedirs target_dir else fs

/-- The report emitted by the directory-creation step. -/
def mkdirEvents (fs : FS) (cfg : Config) (target_dir : FPath) : List Event :=
  if !cfg.dry_run && !fs.pathExists target_dir then [Event.createdDir target_dir] else []

/-- Model of `FileOrganizer.organize_files`: create the target directory (live mode,
when absent), find matches (recursive search), then run the move loop.
The Python function returns `moved_count`; the model returns the whole
final state so the filesystem effect and output are visible too. -/
def organize_files (fs : FS) (cfg : Config) (pattern : String)
    (target_folder_name : Option String := none) : MoveState :=
  let target_dir := targetDirOf cfg pattern target_folder_name
  let fs1 := fsAfterMkdir fs cfg target_dir
  let matching_files := find_files_with_pattern fs1 cfg pattern
  matching_files.foldl (moveStep cfg target_dir) ⟨fs1, 0, mkdirEvents fs cfg target_dir⟩

/-- Model of `FileOrganizer.organize_multiple_patterns`: apply `organize_files` once
per mapping entry in order, collecting `{pattern: moved_count}` (a list in
insertion order) and the concatenated reports. -/
def organize_multiple_patterns (fs : FS) (cfg : Config) :
    List (String × String) → FS × List (String × Nat) × List Event
  | [] => (fs, [], [])
  | (pattern, folder_name) :: rest =>
    let st := organize_files fs cfg pattern (some folder_name)
    let out := organize_multiple_patterns st.fs cfg rest
    (out.1, (pattern, st.moved_count) :: out.2.1, st.events ++ out.2.2)

/-- The per-file post-condition of the spec's moved-count invariant: the
file's destination now exists with the file's original content, and its
original path no longer exists. -/
def movedOK (fs0 fsF : FS) (target_dir : FPath) (f : FPath) : Bool :=
  fsF.isFile (target_dir ++ [basename f]) &&
    decide (fsF.content (target_dir ++ [basename f]) = fs0.content f) &&
    !fsF.pathExists f

/-- Static classification of a matched file in a live run: it is neither the
no-op skip case nor an environmentally failing move. -/
def goodMove (badMoves : List FPath) (target_dir : FPath) (f : FPath) : Bool :=
  !decide (f = target_dir ++ [basename f]) && !decide (f ∈ badMoves)

/-! ### Concrete filesystems used as test fixtures -/

/-- A live configuration rooted at the absolute directory `/s`. -/
def cfgL : Config := { source_dir := ["s"], dest_dir := ["s"], dry_run := false }

/-- The same configuration in dry-run mode. -/
def cfgD : Config := { source_dir := ["s"], dest_dir := ["s"], dry_run := true }

/-- Two matched files in different subdirectories sharing the base name
`n.txt`, with arbitrary contents. -/
def fsDup (c1 c2 : Nat) : FS :=
  { files := [(["s", "a", "n.txt"], c1), (["s", "b", "n.txt"], c2)],
    dirs := [["s"], ["s", "a"], ["s", "b"]], unreadable := [], badMoves := [] }

/-- Three files with pairwise distinct base names; two match `"rep"`. -/
def fsOrg : FS :=
  { files := [(["s", "rep_jan.txt"], 1), (["s", "a", "rep_feb.txt"], 2), (["s", "notes.doc"], 3)],
    dirs := [["s"], ["s", "a"]], unreadable := [], badMoves := [] }

/-- A matching file below an unreadable source directory. -/
def fsUnread : FS :=
  { files := [(["s", "x.txt"], 1)], dirs := [["s"]], unreadable := [["s"]], badMoves := [] }

/-- Two matching files, the first of which fails to move. -/
def fsBad : FS :=
  { files := [(["s", "x1.txt"], 1), (["s", "x2.txt"], 2)],
    dirs := [["s"]], unreadable := [], badMoves := [["s", "x1.txt"]] }

/-! ### Basic lemmas about the filesystem model -/

theorem basename_concat (d : FPath) (a : String) : basename (d ++ [a]) = a := by
  simp [basename]

theorem concat_inj {d : FPath} {a b : String} (h : d ++ [a] = d ++ [b]) : a = b := by
  have := List.append_cancel_left h
  simpa using this

theorem lookupFile_filter_ne (l : List (FPath × Nat)) (p q : FPath) (h : ¬q = p) :
    lookupFile (l.filter fun e => !decide (e.1 = p)) q = lookupFile l q := by
  induction l with
  | nil => rfl
  | cons e rest ih =>
    rw [List.filter_cons]
    by_cases he : e.1 = p
    · rw [if_neg (by simp [he]), ih]
      simp only [lookupFile]
      rw [if_neg (fun hq : e.1 = q => h (hq ▸ he))]
    · rw [if_pos (by simp [he])]
      simp only [lookupFile]
      by_cases hq : e.1 = q
      · rw [if_pos hq, if_pos hq]
      · rw [if_neg hq, if_neg hq, ih]

theorem lookupFile_filter_self (l : List (FPath × Nat)) (p : FPath) :
    lookupFile (l.filter fun e => !decide (e.1 = p)) p = none := by
  induction l with
  | nil => rfl
  | cons e rest ih =>
    rw [List.filter_cons]
    by_cases he : e.1 = p
    · rw [if_neg (by simp [he])]; exact ih
    · rw [if_pos (by simp [he])]
      simp only [lookupFile]
      rw [if_neg he]; exact ih

theorem content_setFile (fs : FS) (p : FPath) (c : Nat) (q : FPath) :
    (fs.setFile p c).content q = if q = p then some c else fs.content q := by
  show lookupFile ((p, c) :: fs.files.filter fun e => !decide (e.1 = p)) q = _
  simp only [lookupFile]
  by_cases h : q = p
  · rw [if_pos h.symm, if_pos h]
  · rw [if_neg (fun hp : p = q => h hp.symm), if_neg h]
    exact lookupFile_filter_ne _ _ _ h

theorem content_removeFile (fs : FS) (p : FPath) (q : FPath) :
    (fs.removeFile p).content q = if q = p then none else fs.content q := by
  show lookupFile (fs.files.filter fun e => !decide (e.1 = p)) q = _
  by_cases h : q = p
  · rw [if_pos h, h]; exact lookupFile_filter_self _ _
  · rw [if_neg h]; exact lookupFile_filter_ne _ _ _ h

theorem lookupFile_isSome (l : List (FPath × Nat)) (p : FPath) :
    (lookupFile l p).isSome = true ↔ p ∈ l.map Prod.fst := by
  induction l with
  | nil => simp [lookupFile]
  | cons e rest ih =>
    simp only [lookupFile]
    by_cases h : e.1 = p
    · simp [h]
    · rw [if_neg h]
      simp only [List.map_cons, List.mem_cons]
      rw [ih]
      constructor
      · exact Or.inr
      · rintro (hh | hh)
        · exact absurd hh.symm h
        · exact hh

theorem isFile_mem_entries {fs : FS} {p : FPath} (h : fs.isFile p = true) :
    p ∈ fs.entries := by
  have := (lookupFile_isSome fs.files p).mp h
  exact List.mem_append.mpr (Or.inl this)

/-- Moving preserves everything except the file table. -/
theorem move_fields {fs fs' : FS} {src dst : FPath} (h : fs.move src dst = some fs') :
    fs'.dirs = fs.dirs ∧ fs'.badMoves = fs.badMoves ∧ fs'.unreadable = fs.unreadable := by
  unfold FS.move at h
  split at h
  · split at h
    · split at h
      · exact absurd h (by simp)
      · cases h; exact ⟨rfl, rfl, rfl⟩
    · split at h
      · exact absurd h (by simp)
      · split at h
        · exact absurd h (by simp)
        · split at h
          · exact absurd h (by simp)
          · cases h; exact ⟨rfl, rfl, rfl⟩
  · split at h
    · exact absurd h (by simp)
    · split at h
      · exact absurd h (by simp)
      · cases h; exact ⟨rfl, rfl, rfl⟩

/-- When the destination is not a directory, a successful move rewrites
exactly the source (gone) and the destination (the source's content). -/
theorem move_content {fs fs' : FS} {src dst : FPath} (hdd : fs.isDir dst = false)
    (h : fs.move src dst = some fs') (q : FPath) :
    fs'.content q = if q = dst then fs.content src else if q = src then none else fs.content q := by
  unfold FS.move at h
  rw [hdd] at h
  simp only [Bool.false_eq_true, if_false] at h
  split at h
  · exact absurd h (by simp)
  · rename_i hbad
    split at h
    · exact absurd h (by simp)
    · rename_i c hc
      cases h
      rw [content_setFile, content_removeFile]
      by_cases hq : q = dst
      · simp [hq, hc]
      · simp [hq]

theorem move_fail_of_badMoves {fs : FS} {src dst : FPath} (h : src ∈ fs.badMoves)
    (hne : ¬src = dst) : fs.move src dst = none := by
  unfold FS.move
  by_cases hd : fs.isDir dst = true
  · rw [if_pos hd, if_neg hne]
    by_cases hex : fs.pathExists (dst ++ [basename src]) = true
    · rw [if_pos hex]
    · rw [if_neg hex, if_pos h]
  · rw [if_neg hd, if_pos h]

theorem move_some_of {fs : FS} {src dst : FPath} (hdd : fs.isDir dst = false)
    (hbad : src ∉ fs.badMoves) (hsome : (fs.content src).isSome = true) :
    fs.move src dst = some ((fs.removeFile src).setFile dst (fs.content src).get!) := by
  unfold FS.move
  rw [hdd]
  simp only [Bool.false_eq_true, if_false]
  rw [if_neg hbad]
  cases hc : fs.content src with
  | none => rw [hc] at hsome; simp at hsome
  | some c => simp [hc, Option.get!]

/-! ### Lemmas about one iteration of the move loop -/

theorem moveStep_skip {cfg : Config} {target_dir : FPath} (st : MoveState) {f : FPath}
    (h : f = target_dir ++ [basename f]) : moveStep cfg target_dir st f = st := by
  unfold moveStep
  rw [if_pos h]

theorem moveStep_dry {cfg : Config} {target_dir : FPath} (st : MoveState) {f : FPath}
    (hd : cfg.dry_run = true) (h : ¬f = target_dir ++ [basename f]) :
    moveStep cfg target_dir st f =
      { st with events := st.events ++ [Event.wouldMove f (target_dir ++ [basename f])] } := by
  unfold moveStep
  rw [if_neg h, if_pos hd]

theorem moveStep_fail {cfg : Config} {target_dir : FPath} (st : MoveState) {f : FPath}
    (hd : cfg.dry_run = false) (h : ¬f = target_dir ++ [basename f])
    (hbad : f ∈ st.fs.badMoves) :
    moveStep cfg target_dir st f =
      { st with events := st.events ++ [Event.moveError f] } := by
  unfold moveStep
  rw [if_neg h, hd]
  simp only [Bool.false_eq_true, if_false]
  rw [move_fail_of_badMoves hbad h]

theorem moveStep_move {cfg : Config} {target_dir : FPath} (st : MoveState) {f : FPath}
    (hd : cfg.dry_run = false) (h : ¬f = target_dir ++ [basename f])
    (hdd : st.fs.isDir (target_dir ++ [basename f]) = false)
    (hbad : f ∉ st.fs.badMoves) (hsome : (st.fs.content f).isSome = true) :
    moveStep cfg target_dir st f =
      { fs := (st.fs.removeFile f).setFile (target_dir ++ [basename f]) (st.fs.content f).get!,
        moved_count := st.moved_count + 1,
        events := st.events ++ [Event.moved f (target_dir ++ [basename f])] } := by
  unfold moveStep
  rw [if_neg h, hd]
  simp only [Bool.false_eq_true, if_false]
  rw [move_some_of hdd hbad hsome]

/-- A step never changes the directory table, the unreadable set or the
failing-move set. -/
theorem moveStep_fields (cfg : Config) (target_dir : FPath) (st : MoveState) (f : FPath) :
    (moveStep cfg target_dir st f).fs.dirs = st.fs.dirs ∧
    (moveStep cfg target_dir st f).fs.badMoves = st.fs.badMoves ∧
    (moveStep cfg target_dir st f).fs.unreadable = st.fs.unreadable := by
  unfold moveStep
  split
  · exact ⟨rfl, rfl, rfl⟩
  · split
    · exact ⟨rfl, rfl, rfl⟩
    · split
      · rename_i fs' hmv
        have := move_fields hmv
        exact ⟨this.1, this.2.1, this.2.2⟩
      · exact ⟨rfl, rfl, rfl⟩

/-- A step whose destination is not a directory only ever touches the
contents of its own source and destination paths. -/
theorem moveStep_content_frame (cfg : Config) (target_dir : FPath) (st : MoveState)
    (f q : FPath) (hdd : st.fs.isDir (target_dir ++ [basename f]) = false)
    (hq1 : ¬q = f) (hq2 : ¬q = target_dir ++ [basename f]) :
    (moveStep cfg target_dir st f).fs.content q = st.fs.content q := by
  unfold moveStep
  split
  · rfl
  · split
    · rfl
    · split
      · rename_i fs' hmv
        rw [move_content hdd hmv q, if_neg hq2, if_neg hq1]
      · rfl

/-- A step never decreases the count, and never changes it except by a
successful move. -/
theorem moveStep_count (cfg : Config) (target_dir : FPath) (st : MoveState) (f : FPath) :
    (moveStep cfg target_dir st f).moved_count = st.moved_count ∨
    (moveStep cfg target_dir st f).moved_count = st.moved_count + 1 := by
  unfold moveStep
  split
  · exact Or.inl rfl
  · split
    · exact Or.inl rfl
    · split
      · exact Or.inr rfl
      · exact Or.inl rfl

theorem isDir_congr_dirs {fs fs' : FS} (h : fs'.dirs = fs.dirs) (p : FPath) :
    fs'.isDir p = fs.isDir p := by
  unfold FS.isDir
  rw [h]

/-! ### Lemmas about the whole move loop -/

theorem foldl_fields (cfg : Config) (target_dir : FPath) :
    ∀ (ms : List FPath) (st : MoveState),
      (ms.foldl (moveStep cfg target_dir) st).fs.dirs = st.fs.dirs ∧
      (ms.foldl (moveStep cfg target_dir) st).fs.badMoves = st.fs.badMoves ∧
      (ms.foldl (moveStep cfg target_dir) st).fs.unreadable = st.fs.unreadable
  | [], st => ⟨rfl, rfl, rfl⟩
  | f :: t, st => by
    rw [List.foldl_cons]
    have h1 := moveStep_fields cfg target_dir st f
    have h2 := foldl_fields cfg target_dir t (moveStep cfg target_dir st f)
    exact ⟨h2.1.trans h1.1, h2.2.1.trans h1.2.1, h2.2.2.trans h1.2.2⟩

/-- Frame rule for the loop, over a run none of whose destinations is a
directory: a path that is neither a processed source nor a possible
destination keeps its content. -/
theorem foldl_content_frame (cfg : Config) (target_dir : FPath) :
    ∀ (ms : List FPath) (st : MoveState) (q : FPath),
      (∀ g ∈ ms, st.fs.isDir (target_dir ++ [basename g]) = false) →
      (∀ g ∈ ms, ¬q = g ∧ ¬q = target_dir ++ [basename g]) →
      (ms.foldl (moveStep cfg target_dir) st).fs.content q = st.fs.content q
  | [], _, _, _, _ => rfl
  | f :: t, st, q, hdd, hq => by
    rw [List.foldl_cons]
    have hf := hq f (List.mem_cons_self f t)
    have ht : ∀ g ∈ t, ¬q = g ∧ ¬q = target_dir ++ [basename g] :=
      fun g hg => hq g (List.mem_cons_of_mem f hg)
    have hddt : ∀ g ∈ t,
        (moveStep cfg target_dir st f).fs.isDir (target_dir ++ [basename g]) = false := by
      intro g hg
      rw [isDir_congr_dirs (moveStep_fields cfg target_dir st f).1]
      exact hdd g (List.mem_cons_of_mem f hg)
    rw [foldl_content_frame cfg target_dir t _ q hddt ht,
      moveStep_content_frame cfg target_dir st f q (hdd f (List.mem_cons_self f t)) hf.1 hf.2]

/-- Dry-run loop: the filesystem and the count never change. -/
theorem foldl_dry (cfg : Config) (target_dir : FPath) (hd : cfg.dry_run = true) :
    ∀ (ms : List FPath) (st : MoveState),
      (ms.foldl (moveStep cfg target_dir) st).fs = st.fs ∧
      (ms.foldl (moveStep cfg target_dir) st).moved_count = st.moved_count
  | [], st => ⟨rfl, rfl⟩
  | f :: t, st => by
    rw [List.foldl_cons]
    have hstep : (moveStep cfg target_dir st f).fs = st.fs ∧
        (moveStep cfg target_dir st f).moved_count = st.moved_count := by
      by_cases h : f = target_dir ++ [basename f]
      · rw [moveStep_skip st h]; exact ⟨rfl, rfl⟩
      · rw [moveStep_dry st hd h]; exact ⟨rfl, rfl⟩
    have h2 := foldl_dry cfg target_dir hd t (moveStep cfg target_dir st f)
    exact ⟨h2.1.trans hstep.1, h2.2.trans hstep.2⟩

/-- Any file returned by the matcher is a regular file, and its lowercased
name contains the lowercased pattern. -/
theorem find_mem_filterProps {fs : FS} {cfg : Config} {pattern : String} {recursive : Bool}
    {p : FPath} (h : p ∈ find_files_with_pattern fs cfg pattern recursive) :
    fs.isFile p = true ∧ substrB (lowerStr pattern) (lowerStr (basename p)) = true := by
  unfold find_files_with_pattern at h
  have h2 := (List.mem_filter.mp h).2
  simp only [Bool.and_eq_true] at h2
  exact h2

/-- Main loop invariant for a live run whose matched files have pairwise
distinct base names: the count adds one per `goodMove` file, a `goodMove`
file ends up at its destination with its old content and its source gone,
and every other matched file is left untouched. -/
theorem foldl_main (cfg : Config) (target_dir : FPath) (hd : cfg.dry_run = false) :
    ∀ (ms : List FPath) (st : MoveState),
      (ms.map basename).Nodup →
      (∀ g ∈ ms, (st.fs.content g).isSome = true) →
      (∀ g ∈ ms, st.fs.isDir (target_dir ++ [basename g]) = false) →
      (ms.foldl (moveStep cfg target_dir) st).moved_count
        = st.moved_count + (ms.filter (goodMove st.fs.badMoves target_dir)).length
      ∧ ∀ f ∈ ms,
          (goodMove st.fs.badMoves target_dir f = true →
            (ms.foldl (moveStep cfg target_dir) st).fs.content (target_dir ++ [basename f])
              = st.fs.content f
            ∧ (ms.foldl (moveStep cfg target_dir) st).fs.content f = none)
          ∧ (goodMove st.fs.badMoves target_dir f = false →
            (ms.foldl (moveStep cfg target_dir) st).fs.content f = st.fs.content f)
  | [], st, _, _, _ => by simp
  | f :: t, st, hnd, hfile, hdd => by
    rw [List.map_cons, List.nodup_cons] at hnd
    obtain ⟨hb, hnd'⟩ := hnd
    have hgmem : ∀ g ∈ t, ¬g = f ∧ ¬g = target_dir ++ [basename f] := by
      intro g hg
      constructor
      · intro hgf
        exact hb (hgf ▸ List.mem_map_of_mem basename hg)
      · intro hgd
        have : basename g = basename f := by rw [hgd, basename_concat]
        exact hb (this ▸ List.mem_map_of_mem basename hg)
    have hfq : ∀ g ∈ t, ¬f = g ∧ ¬f = target_dir ++ [basename g] := by
      intro g hg
      constructor
      · intro hfg
        exact (hgmem g hg).1 hfg.symm
      · intro hfd
        have : basename f = basename g := by rw [hfd, basename_concat]
        exact hb (this ▸ List.mem_map_of_mem basename hg)
    have hdq : ∀ g ∈ t, ¬(target_dir ++ [basename f]) = g ∧
        ¬(target_dir ++ [basename f]) = target_dir ++ [basename g] := by
      intro g hg
      constructor
      · intro hdg
        exact (hgmem g hg).2 hdg.symm
      · intro hdde
        have : basename f = basename g := concat_inj hdde
        exact hb (this ▸ List.mem_map_of_mem basename hg)
    set st' := moveStep cfg target_dir st f with hst'
    have hfields := moveStep_fields cfg target_dir st f
    have hpres : ∀ g ∈ t, st'.fs.content g = st.fs.content g := by
      intro g hg
      exact moveStep_content_frame cfg target_dir st f g (hdd f (List.mem_cons_self f t))
        (hgmem g hg).1 (hgmem g hg).2
    have hfile' : ∀ g ∈ t, (st'.fs.content g).isSome = true := by
      intro g hg
      rw [hpres g hg]
      exact hfile g (List.mem_cons_of_mem f hg)
    have hddt : ∀ g ∈ t, st'.fs.isDir (target_dir ++ [basename g]) = false := by
      intro g hg
      rw [isDir_congr_dirs hfields.1]
      exact hdd g (List.mem_cons_of_mem f hg)
    have ih := foldl_main cfg target_dir hd t st' hnd' hfile' hddt
    have hbm : st'.fs.badMoves = st.fs.badMoves := hfields.2.1
    rw [List.foldl_cons, ← hst']
    have hsome := hfile f (List.mem_cons_self f t)
    obtain ⟨c, hc⟩ := Option.isSome_iff_exists.mp hsome
    have hstep : (goodMove st.fs.badMoves target_dir f = true →
          st'.moved_count = st.moved_count + 1
          ∧ st'.fs.content (target_dir ++ [basename f]) = st.fs.content f
          ∧ st'.fs.content f = none)
        ∧ (goodMove st.fs.badMoves target_dir f = false →
          st'.moved_count = st.moved_count ∧ st'.fs = st.fs) := by
      by_cases hskip : f = target_dir ++ [basename f]
      · constructor
        · intro hgood
          rw [goodMove, decide_eq_true hskip] at hgood
          simp at hgood
        · intro _
          rw [hst', moveStep_skip st hskip]
          exact ⟨rfl, rfl⟩
      · by_cases hbad : f ∈ st.fs.badMoves
        · constructor
          · intro hgood
            rw [goodMove, decide_eq_true hbad] at hgood
            simp at hgood
          · intro _
            rw [hst', moveStep_fail st hd hskip hbad]
            exact ⟨rfl, rfl⟩
        · constructor
          · intro _
            rw [hst', moveStep_move st hd hskip (hdd f (List.mem_cons_self f t)) hbad hsome]
            refine ⟨rfl, ?_, ?_⟩
            · rw [content_setFile]
              rw [if_pos rfl, hc]
              simp [Option.get!]
            · rw [content_setFile, if_neg hskip, content_removeFile, if_pos rfl]
          · intro hgood
            rw [goodMove, decide_eq_false hskip, decide_eq_false hbad] at hgood
            simp at hgood
    constructor
    · -- count
      rw [ih.1, hbm, List.filter_cons]
      by_cases hgood : goodMove st.fs.badMoves target_dir f = true
      · rw [if_pos hgood, (hstep.1 hgood).1, List.length_cons]
        omega
      · rw [if_neg hgood, (hstep.2 (Bool.eq_false_iff.mpr hgood)).1]
    · -- per-file
      intro g hg
      rcases List.mem_cons.mp hg with hgf | hgt
      · subst hgf
        constructor
        · intro hgood
          have hs := hstep.1 hgood
          constructor
          · rw [foldl_content_frame cfg target_dir t st' _ hddt hdq, hs.2.1]
          · rw [foldl_content_frame cfg target_dir t st' _ hddt hfq, hs.2.2]
        · intro hgood
          have hs := hstep.2 hgood
          rw [foldl_content_frame cfg target_dir t st' _ hddt hfq, hs.2]
      · have ihg := ih.2 g hgt
        rw [hbm] at ihg
        constructor
        · intro hgood
          have := ihg.1 hgood
          rw [hpres g hgt] at this
          exact this
        · intro hgood
          have := ihg.2 hgood
          rw [hpres g hgt] at this
          exact this

/-! ### Characterising the recursive traversal -/

theorem take_pref (k : Nat) (p : FPath) : p.take k <+: p :=
  ⟨p.drop k, List.take_append_drop k p⟩

theorem eq_take_of_pref {d p : FPath} (h : d <+: p) : p.take d.length = d := by
  obtain ⟨t, rfl⟩ := h
  simp

theorem le_foldr_max {a : Nat} {l : List Nat} (h : a ∈ l) (b : Nat) :
    a ≤ l.foldr max b := by
  induction l with
  | nil => cases h
  | cons c t ih =>
    rcases List.mem_cons.mp h with rfl | ht
    · exact le_max_left _ _
    · exact le_trans (ih ht) (le_max_right _ _)

theorem length_le_of_mem_entries {fs : FS} {p : FPath} (h : p ∈ fs.entries) :
    p.length + 1 ≤ fs.depthBound := by
  unfold FS.depthBound
  have : p.length ∈ fs.entries.map List.length := List.mem_map_of_mem List.length h
  have := le_foldr_max this 0
  omega

theorem childOf_true_iff {d c : FPath} :
    childOf d c = true ↔ c.length = d.length + 1 ∧ d <+: c := by
  unfold childOf
  simp only [Bool.and_eq_true, decide_eq_true_eq]

/-- Everything the recursive glob yields lies strictly below the root and is
present in the filesystem. -/
theorem walk_sound (fs : FS) :
    ∀ (fuel : Nat) (d p : FPath), p ∈ fs.walk fuel d →
      (d <+: p ∧ d.length < p.length) ∧ p ∈ fs.entries
  | 0, _, _, h => absurd h (List.not_mem_nil _)
  | fuel + 1, d, p, h => by
    rw [FS.walk] at h
    split at h
    · exact absurd h (List.not_mem_nil _)
    · obtain ⟨c, hc, hp⟩ := List.mem_flatMap.mp h
      have hcm := List.mem_filter.mp hc
      obtain ⟨hclen, hcpre⟩ := childOf_true_iff.mp hcm.2
      rcases List.mem_cons.mp hp with rfl | hp2
      · exact ⟨⟨hcpre, by omega⟩, hcm.1⟩
      · split at hp2
        · have ih := walk_sound fs fuel c p hp2
          refine ⟨⟨hcpre.trans ih.1.1, by have := ih.1.2; omega⟩, ih.2⟩
        · exact absurd hp2 (List.not_mem_nil _)

/-- Completeness of the recursive glob over a readable filesystem whose
intermediate directories all exist: any entry strictly below the root is
reached, given enough fuel. -/
theorem walk_complete (fs : FS) (hread : fs.unreadable = []) :
    ∀ (fuel : Nat) (d p : FPath), d <+: p → d.length < p.length →
      p.length ≤ d.length + fuel → p ∈ fs.entries →
      (∀ k, d.length < k → k < p.length → p.take k ∈ fs.dirs) →
      p ∈ fs.walk fuel d
  | 0, d, p, _, hlt, hfuel, _, _ => by omega
  | fuel + 1, d, p, hpre, hlt, hfuel, hmem, hdirs => by
    rw [FS.walk, hread]
    rw [if_neg (List.not_mem_nil d)]
    apply List.mem_flatMap.mpr
    by_cases hdepth : p.length = d.length + 1
    · refine ⟨p, ?_, List.mem_cons_self _ _⟩
      exact List.mem_filter.mpr ⟨hmem, childOf_true_iff.mpr ⟨hdepth, hpre⟩⟩
    · have hdl : d.length + 1 < p.length := by omega
      have halen : (p.take (d.length + 1)).length = d.length + 1 := by
        rw [List.length_take]; omega
      have hapre : d <+: p.take (d.length + 1) := by
        have h1 : (p.take (d.length + 1)).take d.length = p.take d.length := by
          rw [List.take_take]; congr 1; omega
        rw [eq_take_of_pref hpre] at h1
        have h2 := take_pref d.length (p.take (d.length + 1))
        rw [h1] at h2
        exact h2
      have hadir : p.take (d.length + 1) ∈ fs.dirs := hdirs (d.length + 1) (by omega) hdl
      refine ⟨p.take (d.length + 1), ?_, ?_⟩
      · exact List.mem_filter.mpr
          ⟨List.mem_append.mpr (Or.inr hadir), childOf_true_iff.mpr ⟨halen, hapre⟩⟩
      · apply List.mem_cons_of_mem
        rw [if_pos (show fs.isDir (p.take (d.length + 1)) = true from decide_eq_true hadir)]
        apply walk_complete fs hread fuel (p.take (d.length + 1)) p (take_pref _ _)
        · omega
        · omega
        · exact hmem
        · intro k hk1 hk2
          exact hdirs k (by omega) hk2

/-- Characterisation of the recursive matcher: over a readable filesystem in
which every file's intermediate parent directories exist, `find` returns a
path iff it is a regular file strictly below the source directory whose
lowercased name contains the lowercased pattern. -/
theorem find_rec_iff (fs : FS) (cfg : Config) (pattern : String) (p : FPath)
    (hread : fs.unreadable = [])
    (hdirs : ∀ q ∈ fs.files.map Prod.fst, ∀ k < q.length, cfg.source_dir.length < k →
      q.take k ∈ fs.dirs) :
    p ∈ find_files_with_pattern fs cfg pattern true ↔
      fs.isFile p = true ∧ (cfg.source_dir <+: p ∧ cfg.source_dir.length < p.length) ∧
        substrB (lowerStr pattern) (lowerStr (basename p)) = true := by
  unfold find_files_with_pattern
  rw [if_pos rfl]
  constructor
  · intro h
    have hm := List.mem_filter.mp h
    have hcond := hm.2
    simp only [Bool.and_eq_true] at hcond
    have hw := walk_sound fs _ _ _ hm.1
    exact ⟨hcond.1, hw.1, hcond.2⟩
  · rintro ⟨hfile, ⟨hpre, hlen⟩, hsub⟩
    apply List.mem_filter.mpr
    constructor
    · have hment : p ∈ fs.entries := isFile_mem_entries hfile
      apply walk_complete fs hread _ _ _ hpre hlen ?_ hment ?_
      · have := length_le_of_mem_entries hment
        unfold FS.depthBound at this ⊢
        omega
      · intro k hk1 hk2
        exact hdirs p ((lookupFile_isSome fs.files p).mp hfile) k hk2 hk1
    · rw [hfile, hsub]
      rfl

/-! ### Helpers about directory creation and unreadable roots -/

theorem files_fsAfterMkdir (fs : FS) (cfg : Config) (td : FPath) :
    (fsAfterMkdir fs cfg td).files = fs.files := by
  unfold fsAfterMkdir
  split <;> rfl

theorem content_fsAfterMkdir (fs : FS) (cfg : Config) (td q : FPath) :
    (fsAfterMkdir fs cfg td).content q = fs.content q := by
  unfold FS.content
  rw [files_fsAfterMkdir]

theorem badMoves_fsAfterMkdir (fs : FS) (cfg : Config) (td : FPath) :
    (fsAfterMkdir fs cfg td).badMoves = fs.badMoves := by
  unfold fsAfterMkdir
  split <;> rfl

theorem fsAfterMkdir_dry (fs : FS) (cfg : Config) (td : FPath) (hd : cfg.dry_run = true) :
    fsAfterMkdir fs cfg td = fs := by
  unfold fsAfterMkdir
  rw [hd]
  rfl

theorem mkdirEvents_dry (fs : FS) (cfg : Config) (td : FPath) (hd : cfg.dry_run = true) :
    mkdirEvents fs cfg td = [] := by
  unfold mkdirEvents
  rw [hd]
  rfl

theorem fsAfterMkdir_live (fs : FS) (cfg : Config) (td : FPath) (hd : cfg.dry_run = false)
    (hnx : fs.pathExists td = false) : fsAfterMkdir fs cfg td = fs.makedirs td := by
  unfold fsAfterMkdir
  rw [hd, hnx]
  rfl

theorem mkdirEvents_live (fs : FS) (cfg : Config) (td : FPath) (hd : cfg.dry_run = false)
    (hnx : fs.pathExists td = false) : mkdirEvents fs cfg td = [Event.createdDir td] := by
  unfold mkdirEvents
  rw [hd, hnx]
  rfl

theorem fsAfterMkdir_of_exists (fs : FS) (cfg : Config) (td : FPath)
    (hx : fs.pathExists td = true) : fsAfterMkdir fs cfg td = fs := by
  unfold fsAfterMkdir
  rw [hx]
  simp

theorem mkdirEvents_of_exists (fs : FS) (cfg : Config) (td : FPath)
    (hx : fs.pathExists td = true) : mkdirEvents fs cfg td = [] := by
  unfold mkdirEvents
  rw [hx]
  simp

/-- The modelled `os.makedirs p` makes every nonempty initial segment of `p` (in
particular `p` itself) a directory. -/
theorem makedirs_isDir (fs : FS) (p : FPath) {d : FPath} (hin : d ∈ p.inits)
    (hne : d ≠ []) : (fs.makedirs p).isDir d = true := by
  unfold FS.makedirs FS.isDir
  apply decide_eq_true
  show d ∈ fs.dirs ++ _
  apply List.mem_append.mpr
  by_cases hd : d ∈ fs.dirs
  · exact Or.inl hd
  · refine Or.inr (List.mem_filter.mpr ⟨hin, ?_⟩)
    have h1 : d.isEmpty = false := by
      cases d with
      | nil => exact absurd rfl hne
      | cons a t => rfl
    rw [h1, decide_eq_false hd]
    rfl

theorem walk_unreadable (fs : FS) {d : FPath} (h : d ∈ fs.unreadable) :
    ∀ fuel, fs.walk fuel d = [] := by
  intro fuel
  cases fuel with
  | zero => rfl
  | succ n =>
    rw [FS.walk, if_pos h]

theorem targetDirOf_ne_nil (cfg : Config) (pattern : String) (tfn : Option String) :
    targetDirOf cfg pattern tfn ≠ [] := by
  unfold targetDirOf
  simp

theorem omp_nil_eq (fs : FS) (cfg : Config) :
    organize_multiple_patterns fs cfg [] = (fs, [], []) := rfl

theorem omp_cons_eq (fs : FS) (cfg : Config) (pattern folder : String)
    (rest : List (String × String)) :
    organize_multiple_patterns fs cfg ((pattern, folder) :: rest) =
      ((organize_multiple_patterns (organize_files fs cfg pattern (some folder)).fs cfg rest).1,
       (pattern, (organize_files fs cfg pattern (some folder)).moved_count) ::
         (organize_multiple_patterns (organize_files fs cfg pattern (some folder)).fs cfg rest).2.1,
       (organize_files fs cfg pattern (some folder)).events ++
         (organize_multiple_patterns (organize_files fs cfg pattern (some folder)).fs cfg rest).2.2) :=
  rfl

theorem omp_fst_append (cfg : Config) :
    ∀ (m1 m2 : List (String × String)) (fs : FS),
      (organize_multiple_patterns fs cfg (m1 ++ m2)).1 =
        (organize_multiple_patterns (organize_multiple_patterns fs cfg m1).1 cfg m2).1
  | [], _, _ => rfl
  | (p, f) :: t, m2, fs => by
    rw [List.cons_append, omp_cons_eq, omp_cons_eq]
    exact omp_fst_append cfg t m2 (organize_files fs cfg p (some f)).fs

theorem omp_results_append (cfg : Config) :
    ∀ (m1 m2 : List (String × String)) (fs : FS),
      (organize_multiple_patterns fs cfg (m1 ++ m2)).2.1 =
        (organize_multiple_patterns fs cfg m1).2.1 ++
          (organize_multiple_patterns (organize_multiple_patterns fs cfg m1).1 cfg m2).2.1
  | [], _, _ => rfl
  | (p, f) :: t, m2, fs => by
    rw [List.cons_append, omp_cons_eq, omp_cons_eq]
    simp only [List.cons_append]
    rw [omp_results_append cfg t m2 (organize_files fs cfg p (some f)).fs]

theorem omp_keys (cfg : Config) :
    ∀ (m : List (String × String)) (fs : FS),
      (organize_multiple_patterns fs cfg m).2.1.map Prod.fst = m.map Prod.fst
  | [], _ => rfl
  | (p, f) :: t, fs => by
    rw [omp_cons_eq]
    simp only [List.map_cons]
    rw [omp_keys cfg t (organize_files fs cfg p (some f)).fs]

/-- The live move loop satisfies the moved-count invariant whenever the
matched files have pairwise distinct base names: the returned count equals
the number of matched files whose destination holds their original content
and whose original path is gone. -/
theorem organize_count_spec (cfg : Config) (td : FPath) (hd : cfg.dry_run = false)
    (fs0 fs1 : FS) (ms : List FPath) (ev : List Event)
    (hc : ∀ q, fs1.content q = fs0.content q)
    (hnd : (ms.map basename).Nodup)
    (hfile : ∀ g ∈ ms, (fs1.content g).isSome = true)
    (hnotdir : ∀ f ∈ ms, fs1.isDir f = false)
    (hdstdir : ∀ f ∈ ms, fs1.isDir (td ++ [basename f]) = false) :
    (ms.foldl (moveStep cfg td) ⟨fs1, 0, ev⟩).moved_count =
      (ms.filter (movedOK fs0 (ms.foldl (moveStep cfg td) ⟨fs1, 0, ev⟩).fs td)).length := by
  have main := foldl_main cfg td hd ms ⟨fs1, 0, ev⟩ hnd hfile hdstdir
  simp only [] at main
  have hdirs : (ms.foldl (moveStep cfg td) ⟨fs1, 0, ev⟩).fs.dirs = fs1.dirs :=
    (foldl_fields cfg td ms ⟨fs1, 0, ev⟩).1
  have hcong : ∀ f ∈ ms,
      movedOK fs0 (ms.foldl (moveStep cfg td) ⟨fs1, 0, ev⟩).fs td f =
        goodMove fs1.badMoves td f := by
    intro f hf
    have per := main.2 f hf
    by_cases hg : goodMove fs1.badMoves td f = true
    · rw [hg]
      have h1 := (per.1 hg).1
      have h2 := (per.1 hg).2
      have hd2 : (ms.foldl (moveStep cfg td) ⟨fs1, 0, ev⟩).fs.isDir f = false := by
        unfold FS.isDir
        unfold FS.isDir at hnotdir
        rw [hdirs]
        exact hnotdir f hf
      simp only [movedOK, FS.pathExists, FS.isFile]
      rw [h1, hc f, h2, hd2]
      have hs : (fs0.content f).isSome = true := hc f ▸ hfile f hf
      rw [hs, decide_eq_true rfl]
      rfl
    · have hg' : goodMove fs1.badMoves td f = false := Bool.eq_false_iff.mpr hg
      rw [hg']
      have h3 := per.2 hg'
      simp only [movedOK, FS.pathExists, FS.isFile]
      rw [h3, hfile f hf]
      simp
  rw [List.filter_congr hcong]
  rw [main.1]
  simp

/-! ### Claim theorems -/

/-- C1 counterexample: with two matched files from different subdirectories
sharing a base name, `organize` returns `2`, but only one matched file
(the last) has its destination holding its original content with its
original path gone — the first file's content was silently overwritten.
So the moved count does not equal the number of files satisfying the
claimed post-condition. -/
theorem C1_counterexample :
    ¬((organize_files (fsDup 1 2) cfgL "n" (some "F")).moved_count =
      ((find_files_with_pattern (fsAfterMkdir (fsDup 1 2) cfgL (targetDirOf cfgL "n" (some "F")))
          cfgL "n" true).filter
        (movedOK (fsDup 1 2) (organize_files (fsDup 1 2) cfgL "n" (some "F")).fs
          (targetDirOf cfgL "n" (some "F")))).length) := by decide

/-- C1 (amended): in live mode, **provided the matched files have pairwise
distinct base names, no matched path is a directory, and no matched file's
destination path `destDir/F/<basename>` is an existing directory**, the
integer returned by `organize(P, F)` equals the number of matched files
whose destination path now exists with the same content as the original
file and whose original path no longer exists.  (Without the last proviso
`shutil.move` diverts the file *into* the directory sitting at its
destination; without distinct base names a later move silently overwrites
an earlier one — see the counterexample.) -/
theorem C1_moved_count_invariant (fs : FS) (cfg : Config) (pattern : String)
    (tfn : Option String) (hd : cfg.dry_run = false)
    (hnd : ((find_files_with_pattern (fsAfterMkdir fs cfg (targetDirOf cfg pattern tfn)) cfg
      pattern true).map basename).Nodup)
    (hnotdir : ∀ f ∈ find_files_with_pattern (fsAfterMkdir fs cfg (targetDirOf cfg pattern tfn))
      cfg pattern true,
      (fsAfterMkdir fs cfg (targetDirOf cfg pattern tfn)).isDir f = false)
    (hdstdir : ∀ f ∈ find_files_with_pattern (fsAfterMkdir fs cfg (targetDirOf cfg pattern tfn))
      cfg pattern true,
      (fsAfterMkdir fs cfg (targetDirOf cfg pattern tfn)).isDir
        (targetDirOf cfg pattern tfn ++ [basename f]) = false) :
    (organize_files fs cfg pattern tfn).moved_count =
      ((find_files_with_pattern (fsAfterMkdir fs cfg (targetDirOf cfg pattern tfn)) cfg pattern
        true).filter
        (movedOK fs (organize_files fs cfg pattern tfn).fs (targetDirOf cfg pattern tfn))).length :=
  organize_count_spec cfg (targetDirOf cfg pattern tfn) hd fs
    (fsAfterMkdir fs cfg (targetDirOf cfg pattern tfn))
    (find_files_with_pattern (fsAfterMkdir fs cfg (targetDirOf cfg pattern tfn)) cfg pattern true)
    (mkdirEvents fs cfg (targetDirOf cfg pattern tfn))
    (content_fsAfterMkdir fs cfg (targetDirOf cfg pattern tfn))
    hnd
    (fun _ hg => (find_mem_filterProps hg).1)
    hnotdir
    hdstdir

/-- C1 witness: on a run with pairwise distinct base names the moved count
equals the number of files satisfying the post-condition. -/
theorem C1_witness :
    (organize_files fsOrg cfgL "rep" (some "R")).moved_count =
      ((find_files_with_pattern (fsAfterMkdir fsOrg cfgL (targetDirOf cfgL "rep" (some "R")))
        cfgL "rep" true).filter
        (movedOK fsOrg (organize_files fsOrg cfgL "rep" (some "R")).fs
          (targetDirOf cfgL "rep" (some "R")))).length :=
  C1_moved_count_invariant fsOrg cfgL "rep" (some "R") rfl (by decide) (by decide) (by decide)

/-- C2: over a readable filesystem whose files' intermediate parent
directories all exist, recursive `find` returns exactly the regular files,
at every depth strictly below the source directory, whose lowercased base
name contains the lowercased pattern as a substring (directories and other
non-file entries are excluded by the file check), and the empty pattern
matches every regular file. -/
theorem C2_find_exactly_matching_files :
    (∀ (fs : FS) (cfg : Config) (pattern : String) (p : FPath),
      fs.unreadable = [] →
      (∀ q ∈ fs.files.map Prod.fst, ∀ k < q.length, cfg.source_dir.length < k →
        q.take k ∈ fs.dirs) →
      (p ∈ find_files_with_pattern fs cfg pattern true ↔
        fs.isFile p = true ∧ (cfg.source_dir <+: p ∧ cfg.source_dir.length < p.length) ∧
          substrB (lowerStr pattern) (lowerStr (basename p)) = true))
    ∧ ∀ s : String, substrB (lowerStr "") (lowerStr s) = true := by
  constructor
  · intro fs cfg pattern p hread hdirs
    exact find_rec_iff fs cfg pattern p hread hdirs
  · intro s
    have h0 : (lowerStr "").data = [] := rfl
    exact decide_eq_true ⟨[], (lowerStr s).data, by rw [h0]; simp⟩

/-- C2 witness: the characterisation applied to a concrete filesystem and
an uppercase pattern. -/
theorem C2_witness :
    ["s", "a", "rep_feb.txt"] ∈ find_files_with_pattern fsOrg cfgL "REP" true ↔
      fsOrg.isFile ["s", "a", "rep_feb.txt"] = true ∧
        (cfgL.source_dir <+: ["s", "a", "rep_feb.txt"] ∧
          cfgL.source_dir.length < (["s", "a", "rep_feb.txt"] : FPath).length) ∧
        substrB (lowerStr "REP") (lowerStr (basename ["s", "a", "rep_feb.txt"])) = true :=
  C2_find_exactly_matching_files.1 fsOrg cfgL "REP" ["s", "a", "rep_feb.txt"] rfl (by decide)

/-- C3: calling `organize` in dry-run mode performs no filesystem mutation
and does not increment the moved count; calling it twice in dry-run mode
leaves the filesystem unchanged and produces identical results (in
particular identical reported output) both times. -/
theorem C3_dry_run_pure_idempotent (fs : FS) (cfg : Config) (pattern : String)
    (tfn : Option String) (hd : cfg.dry_run = true) :
    (organize_files fs cfg pattern tfn).fs = fs ∧
    (organize_files fs cfg pattern tfn).moved_count = 0 ∧
    organize_files (organize_files fs cfg pattern tfn).fs cfg pattern tfn =
      organize_files fs cfg pattern tfn := by
  have heq : organize_files fs cfg pattern tfn =
      (find_files_with_pattern (fsAfterMkdir fs cfg (targetDirOf cfg pattern tfn)) cfg pattern
        true).foldl
        (moveStep cfg (targetDirOf cfg pattern tfn))
        ⟨fsAfterMkdir fs cfg (targetDirOf cfg pattern tfn), 0,
          mkdirEvents fs cfg (targetDirOf cfg pattern tfn)⟩ := rfl
  have hdry := foldl_dry cfg (targetDirOf cfg pattern tfn) hd
    (find_files_with_pattern (fsAfterMkdir fs cfg (targetDirOf cfg pattern tfn)) cfg pattern true)
    ⟨fsAfterMkdir fs cfg (targetDirOf cfg pattern tfn), 0,
      mkdirEvents fs cfg (targetDirOf cfg pattern tfn)⟩
  have h1 : (organize_files fs cfg pattern tfn).fs = fs := by
    rw [heq]
    exact hdry.1.trans (fsAfterMkdir_dry fs cfg (targetDirOf cfg pattern tfn) hd)
  have h2 : (organize_files fs cfg pattern tfn).moved_count = 0 := by
    rw [heq]
    exact hdry.2
  exact ⟨h1, h2, by rw [h1]⟩

/-- C3 witness: a concrete dry run is pure and idempotent. -/
theorem C3_witness :
    (organize_files fsOrg cfgD "rep" none).fs = fsOrg ∧
    (organize_files fsOrg cfgD "rep" none).moved_count = 0 ∧
    organize_files (organize_files fsOrg cfgD "rep" none).fs cfgD "rep" none =
      organize_files fsOrg cfgD "rep" none :=
  C3_dry_run_pure_idempotent fsOrg cfgD "rep" none rfl

/-- C4: a matched file whose source path equals its destination path is
skipped: the loop step leaves the state (filesystem, moved count and
reported output) exactly unchanged, and a run over any match list behaves
as if the file were absent. -/
theorem C4_same_path_skipped (cfg : Config) (target_dir : FPath) (st : MoveState) (f : FPath)
    (h : f = target_dir ++ [basename f]) :
    moveStep cfg target_dir st f = st ∧
    ∀ xs ys : List FPath,
      (xs ++ f :: ys).foldl (moveStep cfg target_dir) st =
        (xs ++ ys).foldl (moveStep cfg target_dir) st := by
  refine ⟨moveStep_skip st h, ?_⟩
  intro xs ys
  rw [List.foldl_append, List.foldl_append, List.foldl_cons, moveStep_skip _ h]

/-- C4 witness: a file already at `dest_dir/F/<name>` is a no-op. -/
theorem C4_witness :
    moveStep cfgL ["s", "F"] ⟨fsOrg, 0, []⟩ ["s", "F", "n.txt"] = ⟨fsOrg, 0, []⟩ :=
  (C4_same_path_skipped cfgL ["s", "F"] ⟨fsOrg, 0, []⟩ ["s", "F", "n.txt"] rfl).1

/-- C5: when one matched file's move fails, the loop reports the error for
that file, leaves the filesystem and the moved count unchanged for it, and
continues processing all remaining matches from that very state. -/
theorem C5_move_failure_isolated (cfg : Config) (target_dir : FPath) (st : MoveState)
    (f : FPath) (xs ys : List FPath) (hd : cfg.dry_run = false)
    (hne : ¬f = target_dir ++ [basename f])
    (hbad : f ∈ (xs.foldl (moveStep cfg target_dir) st).fs.badMoves) :
    (xs ++ f :: ys).foldl (moveStep cfg target_dir) st =
      ys.foldl (moveStep cfg target_dir)
        { fs := (xs.foldl (moveStep cfg target_dir) st).fs,
          moved_count := (xs.foldl (moveStep cfg target_dir) st).moved_count,
          events := (xs.foldl (moveStep cfg target_dir) st).events ++ [Event.moveError f] } := by
  rw [List.foldl_append, List.foldl_cons, moveStep_fail _ hd hne hbad]

/-- C5 witness: a failing move only records an error and the batch goes on. -/
theorem C5_witness :
    ([] ++ ["s", "x1.txt"] :: [[ "s", "x2.txt"]]).foldl (moveStep cfgL ["s", "F"])
        ⟨fsBad, 0, []⟩ =
      [[ "s", "x2.txt"]].foldl (moveStep cfgL ["s", "F"])
        { fs := ([] : List FPath).foldl (moveStep cfgL ["s", "F"]) ⟨fsBad, 0, []⟩ |>.fs,
          moved_count := ([] : List FPath).foldl (moveStep cfgL ["s", "F"]) ⟨fsBad, 0, []⟩ |>.moved_count,
          events := (([] : List FPath).foldl (moveStep cfgL ["s", "F"]) ⟨fsBad, 0, []⟩ |>.events) ++
            [Event.moveError ["s", "x1.txt"]] } :=
  C5_move_failure_isolated cfgL ["s", "F"] ⟨fsBad, 0, []⟩ ["s", "x1.txt"] []
    [[ "s", "x2.txt"]] rfl (by decide) (by decide)

/-- C7 counterexample: a regular file matching the pattern sits below the
source directory, yet the directory is unreadable and `find` silently
returns the empty list — the read error is swallowed by the glob machinery
(no error value is propagated to the caller), contradicting the claim that
the failure propagates. -/
theorem C7_counterexample :
    fsUnread.isFile ["s", "x.txt"] = true ∧
    (["s"] : FPath) <+: ["s", "x.txt"] ∧
    substrB (lowerStr "x") (lowerStr (basename ["s", "x.txt"])) = true ∧
    find_files_with_pattern fsUnread cfgL "x" true = [] := by
  refine ⟨rfl, ⟨["x.txt"], rfl⟩, by decide, by decide⟩

/-- C7 (amended): if the source directory cannot be read, `find` silently
yields no results — `pathlib`'s glob suppresses the scan error, so nothing
is propagated and no exception aborts the operation; `find` itself never
mutates the filesystem (it is a pure function of the filesystem state). -/
theorem C7_unreadable_silently_empty (fs : FS) (cfg : Config) (pattern : String)
    (recursive : Bool) (h : cfg.source_dir ∈ fs.unreadable) :
    find_files_with_pattern fs cfg pattern recursive = [] := by
  unfold find_files_with_pattern
  cases recursive with
  | true =>
    rw [if_pos rfl, walk_unreadable fs h]
    rfl
  | false =>
    rw [if_neg Bool.false_ne_true, if_pos h]
    rfl

/-- C7 witness: `find` over the unreadable fixture returns nothing. -/
theorem C7_witness : find_files_with_pattern fsUnread cfgL "x" false = [] :=
  C7_unreadable_silently_empty fsUnread cfgL "x" false (by decide)

/-- C6: `organizeMultiple` applies `organize` exactly once per mapping entry
in the order supplied (cons equation), mappings are processed independently
and sequentially (the result over `m1 ++ m2` is the result over `m1`
followed by the result over `m2` from the intermediate filesystem — so no
earlier failure or empty result prevents later processing), and the
returned association list maps exactly the supplied patterns, in order, to
their moved counts. -/
theorem C6_multiple_mappings_sequential :
    (∀ (fs : FS) (cfg : Config) (pattern folder : String) (rest : List (String × String)),
      organize_multiple_patterns fs cfg ((pattern, folder) :: rest) =
        ((organize_multiple_patterns (organize_files fs cfg pattern (some folder)).fs cfg rest).1,
         (pattern, (organize_files fs cfg pattern (some folder)).moved_count) ::
           (organize_multiple_patterns (organize_files fs cfg pattern (some folder)).fs cfg rest).2.1,
         (organize_files fs cfg pattern (some folder)).events ++
           (organize_multiple_patterns (organize_files fs cfg pattern (some folder)).fs cfg
             rest).2.2))
    ∧ (∀ (fs : FS) (cfg : Config) (m1 m2 : List (String × String)),
      (organize_multiple_patterns fs cfg (m1 ++ m2)).2.1 =
        (organize_multiple_patterns fs cfg m1).2.1 ++
          (organize_multiple_patterns (organize_multiple_patterns fs cfg m1).1 cfg m2).2.1)
    ∧ (∀ (fs : FS) (cfg : Config) (m : List (String × String)),
      (organize_multiple_patterns fs cfg m).2.1.map Prod.fst = m.map Prod.fst) :=
  ⟨fun fs cfg p f rest => omp_cons_eq fs cfg p f rest,
   fun fs cfg m1 m2 => omp_results_append cfg m1 m2 fs,
   fun fs cfg m => omp_keys cfg m fs⟩

/-- C8: the target folder name defaults to the pattern verbatim; the target
directory is `destDir/targetFolderName`; in live mode a missing target
directory is created together with all intermediate directories, while an
existing one is left untouched with no report (creation is idempotent, no
error); and `organize` always invokes the matcher with `recursive = true`. -/
theorem C8_defaults_creation_recursive :
    (∀ (fs : FS) (cfg : Config) (pattern : String),
      organize_files fs cfg pattern none = organize_files fs cfg pattern (some pattern))
    ∧ (∀ (cfg : Config) (pattern folder : String),
      targetDirOf cfg pattern (some folder) = cfg.dest_dir ++ [folder])
    ∧ (∀ (fs : FS) (cfg : Config) (pattern : String) (tfn : Option String),
      cfg.dry_run = false → fs.pathExists (targetDirOf cfg pattern tfn) = false →
      ∀ d ∈ (targetDirOf cfg pattern tfn).inits, d ≠ [] →
        (fsAfterMkdir fs cfg (targetDirOf cfg pattern tfn)).isDir d = true)
    ∧ (∀ (fs : FS) (cfg : Config) (td : FPath), fs.pathExists td = true →
      fsAfterMkdir fs cfg td = fs ∧ mkdirEvents fs cfg td = [])
    ∧ (∀ (fs : FS) (cfg : Config) (pattern : String) (tfn : Option String),
      organize_files fs cfg pattern tfn =
        (find_files_with_pattern (fsAfterMkdir fs cfg (targetDirOf cfg pattern tfn)) cfg pattern
          true).foldl
          (moveStep cfg (targetDirOf cfg pattern tfn))
          ⟨fsAfterMkdir fs cfg (targetDirOf cfg pattern tfn), 0,
            mkdirEvents fs cfg (targetDirOf cfg pattern tfn)⟩) := by
  refine ⟨fun _ _ _ => rfl, fun _ _ _ => rfl, ?_, ?_, fun _ _ _ _ => rfl⟩
  · intro fs cfg pattern tfn hd hnx d hin hne
    rw [fsAfterMkdir_live fs cfg _ hd hnx]
    exact makedirs_isDir fs _ hin hne
  · intro fs cfg td hx
    exact ⟨fsAfterMkdir_of_exists fs cfg td hx, mkdirEvents_of_exists fs cfg td hx⟩

/-- C8 witness: concrete instances of the directory-creation conjuncts. -/
theorem C8_witness :
    (fsAfterMkdir fsOrg cfgL (targetDirOf cfgL "rep" none)).isDir ["s", "rep"] = true ∧
    fsAfterMkdir fsOrg cfgL ["s"] = fsOrg ∧ mkdirEvents fsOrg cfgL ["s"] = [] := by
  refine ⟨?_, ?_, ?_⟩
  · exact C8_defaults_creation_recursive.2.2.1 fsOrg cfgL "rep" none rfl (by decide)
      ["s", "rep"] (by decide) (by decide)
  · exact (C8_defaults_creation_recursive.2.2.2.1 fsOrg cfgL ["s"] (by decide)).1
  · exact (C8_defaults_creation_recursive.2.2.2.1 fsOrg cfgL ["s"] (by decide)).2

/-- C9: in live mode the target directory is created before matching, so a
pattern with zero matches still leaves behind a newly created directory
while `organize` returns `0` (having reported only the creation). -/
theorem C9_empty_match_still_creates_dir (fs : FS) (cfg : Config) (pattern : String)
    (tfn : Option String) (hd : cfg.dry_run = false)
    (hnx : fs.pathExists (targetDirOf cfg pattern tfn) = false)
    (hempty : find_files_with_pattern (fsAfterMkdir fs cfg (targetDirOf cfg pattern tfn)) cfg
      pattern true = []) :
    (organize_files fs cfg pattern tfn).fs = fs.makedirs (targetDirOf cfg pattern tfn) ∧
    (organize_files fs cfg pattern tfn).fs.isDir (targetDirOf cfg pattern tfn) = true ∧
    (organize_files fs cfg pattern tfn).moved_count = 0 ∧
    (organize_files fs cfg pattern tfn).events =
      [Event.createdDir (targetDirOf cfg pattern tfn)] := by
  have heq : organize_files fs cfg pattern tfn =
      (find_files_with_pattern (fsAfterMkdir fs cfg (targetDirOf cfg pattern tfn)) cfg pattern
        true).foldl
        (moveStep cfg (targetDirOf cfg pattern tfn))
        ⟨fsAfterMkdir fs cfg (targetDirOf cfg pattern tfn), 0,
          mkdirEvents fs cfg (targetDirOf cfg pattern tfn)⟩ := rfl
  rw [heq, hempty]
  simp only [List.foldl_nil]
  rw [fsAfterMkdir_live fs cfg _ hd hnx, mkdirEvents_live fs cfg _ hd hnx]
  refine ⟨rfl, ?_, trivial, rfl⟩
  exact makedirs_isDir fs _
    (List.mem_inits _ _ |>.mpr ⟨[], List.append_nil _⟩)
    (targetDirOf_ne_nil cfg pattern tfn)

/-- C9 witness: organizing a never-matching pattern still creates the
folder and returns zero. -/
theorem C9_witness :
    (organize_files fsOrg cfgL "zzz" (some "Z")).fs =
      fsOrg.makedirs (targetDirOf cfgL "zzz" (some "Z")) ∧
    (organize_files fsOrg cfgL "zzz" (some "Z")).fs.isDir (targetDirOf cfgL "zzz" (some "Z")) =
      true ∧
    (organize_files fsOrg cfgL "zzz" (some "Z")).moved_count = 0 ∧
    (organize_files fsOrg cfgL "zzz" (some "Z")).events =
      [Event.createdDir (targetDirOf cfgL "zzz" (some "Z"))] :=
  C9_empty_match_still_creates_dir fsOrg cfgL "zzz" (some "Z") rfl (by decide) (by decide)

set_option maxHeartbeats 8000000

/-- Full symbolic execution of the duplicate-basename scenario: both files
match, both are moved to the one shared destination, and the second move
overwrites the first. -/
theorem fsDup_run (c1 c2 : Nat) :
    organize_files (fsDup c1 c2) cfgL "n" (some "F") =
      { fs := { files := [(["s", "F", "n.txt"], c2)],
                dirs := [["s"], ["s", "a"], ["s", "b"], ["s", "F"]],
                unreadable := [], badMoves := [] },
        moved_count := 2,
        events := [Event.createdDir ["s", "F"],
                   Event.moved ["s", "a", "n.txt"] ["s", "F", "n.txt"],
                   Event.moved ["s", "b", "n.txt"] ["s", "F", "n.txt"]] } := rfl

/-- C10: two matched files from different subdirectories sharing a base
name are both assigned the destination `destDir/F/<basename>`; both moves
are performed and counted, no error is reported, and the later move
silently overwrites the earlier one, so only the last file's content
survives at the destination while both original paths are gone. -/
theorem C10_same_basename_last_wins (c1 c2 : Nat) :
    (organize_files (fsDup c1 c2) cfgL "n" (some "F")).moved_count = 2 ∧
    (organize_files (fsDup c1 c2) cfgL "n" (some "F")).fs.content ["s", "F", "n.txt"] =
      some c2 ∧
    (organize_files (fsDup c1 c2) cfgL "n" (some "F")).fs.content ["s", "a", "n.txt"] = none ∧
    (organize_files (fsDup c1 c2) cfgL "n" (some "F")).fs.content ["s", "b", "n.txt"] = none ∧
    (organize_files (fsDup c1 c2) cfgL "n" (some "F")).events =
      [Event.createdDir ["s", "F"],
       Event.moved ["s", "a", "n.txt"] ["s", "F", "n.txt"],
       Event.moved ["s", "b", "n.txt"] ["s", "F", "n.txt"]] := by
  rw [fsDup_run]
  exact ⟨rfl, rfl, rfl, rfl, rfl⟩

set_option maxHeartbeats 1000000

end FileOrg
